import Mathlib

/-!
Verification of the recursive directory walker of node-fs-hospitality
(src/fs-hospitality.ts): `readdirRecursively` (concurrent) and
`readdirRecursivelySync` (sequential), their entry classification,
filter predicates, merge order and failure behaviour.

The filesystem is modelled as a tree of raw directory entries carrying the
type bits that Node's `fs.Dirent` reports without following links.  The JS
regular-expression engine is external to the repository and is modelled at
its interface boundary only (`RegexEngine`).  The completion order of the
concurrent tasks spawned by `Promise.all` is modelled by an explicit
schedule assigning to every tree position a permutation of its
subdirectory tasks.
-/

namespace FsHospitality

/-- Target of a symbolic link.  The walker never follows links, so the
target only records what the link would resolve to (used to state that the
walk is independent of it). -/
inductive LinkTarget where
  | tfile
  | tdir
  | tmissing
deriving DecidableEq

/-- Errors surfaced by a walk: the three listing failures of `fs.readdir`
plus the `SyntaxError` thrown by `new RegExp` for a malformed source
(`InvalidPattern`). -/
inductive WalkError where
  | notFound (p : String)
  | notADirectory (p : String)
  | permissionDenied (p : String)
  | invalidPattern (src : String)
deriving DecidableEq

/-- One node of a directory tree, tagged the way `fs.readdir` with
`withFileTypes` tags it (no link following).  `baddir` is a directory
entry whose own listing raises the stored error (vanished directory,
permission failure, ...). -/
inductive FsNode where
  | file (nm : String)
  | symlink (nm : String) (target : LinkTarget)
  | dir (nm : String) (children : List FsNode)
  | baddir (nm : String) (err : WalkError)

/-- Base name of the entry (`dirent.name`). -/
def FsNode.entryName : FsNode → String
  | .file nm => nm
  | .symlink nm _ => nm
  | .dir nm _ => nm
  | .baddir nm _ => nm

/-- `dirent.isDirectory()`: true only for a real (non-symlink) directory. -/
def FsNode.isDirectoryBit : FsNode → Bool
  | .dir _ _ => true
  | .baddir _ _ => true
  | _ => false

/-- `dirent.isFile()`: true only for a real (non-symlink) regular file. -/
def FsNode.isFileBit : FsNode → Bool
  | .file _ => true
  | _ => false

/-- `dirent.isSymbolicLink()`: true for any symbolic link. -/
def FsNode.isSymbolicLinkBit : FsNode → Bool
  | .symlink _ _ => true
  | _ => false

/-- The `FileInfo` record built by the walker for each entry
(src/fs-hospitality.ts, `interface FileInfo`). -/
structure FileInfo where
  name : String
  relPath : String
  path : String
  isDirectory : Bool
  isFile : Bool
  isSymbolicLink : Bool
deriving DecidableEq

/-- A match/ignore pattern argument: either a precompiled regular
expression (kept as its `test` function) or a pattern-source string to be
compiled with `new RegExp(src, 'i')`. -/
inductive JsRegExpArg where
  | re (test : String → Bool)
  | src (s : String)

/-- Modelled from the spec: the external JS regular-expression engine at
its interface boundary.  `compileI s` is `new RegExp(s, 'i')` — the
case-insensitively compiled matcher — returning `none` when the source is
malformed (the engine throws a `SyntaxError`). -/
structure RegexEngine where
  compileI : String → Option (String → Bool)

/-- Options of `readdirRecursively` / `readdirRecursivelySync`
(fields in source order; absent/falsy options are `false` / `none`). -/
structure ReaddirOptions where
  isOnlyFile : Bool
  isOnlyDir : Bool
  excludesSymlink : Bool
  matchedRegExp : Option JsRegExpArg
  ignoredRegExp : Option JsRegExpArg
  withFileTypes : Bool

/-- `path.join(parent, name)` as used for `relPath` (empty parent at the
top level; the platform separator is written "/"). -/
def joinRel (parent nm : String) : String :=
  if parent = "" then nm else parent ++ "/" ++ nm

/-- `path.resolve(dirPath, name)` for an absolute `dirPath`. -/
def resolveChild (dirPath nm : String) : String :=
  dirPath ++ "/" ++ nm

/-- The pattern set-up of both walkers: `null` stays absent, a precompiled
`RegExp` is used as provided, a string source is compiled with
`new RegExp(src, 'i')`; a malformed source raises `InvalidPattern`. -/
def compilePat (eng : RegexEngine) : Option JsRegExpArg → Except WalkError (Option (String → Bool))
  | none => .ok none
  | some (.re t) => .ok (some t)
  | some (.src s) =>
      match eng.compileI s with
      | some t => .ok (some t)
      | none => .error (.invalidPattern s)

/-- The leaf filter of the walkers' first `forEach` (the four early
`return`s), as one conjunction: drop when `isOnlyDir`; drop a symlink when
`excludesSymlink`; drop when a match pattern is set and `relPath` fails
it; drop when an ignore pattern is set and `relPath` matches it. -/
def leafAdmitted (o : ReaddirOptions) (m g : Option (String → Bool))
    (isSym : Bool) (rp : String) : Bool :=
  !o.isOnlyDir && !(o.excludesSymlink && isSym) &&
    (match m with | some t => t rp | none => true) &&
    (match g with | some t => !t rp | none => true)

/-- The `FileInfo` pushed for a non-directory entry. -/
def mkLeafInfo (dirPath rp : String) (d : FsNode) : FileInfo :=
  ⟨d.entryName, rp, resolveChild dirPath d.entryName, false, d.isFileBit, d.isSymbolicLinkBit⟩

/-- The `FileInfo` pushed for a directory entry. -/
def mkDirInfo (dirPath rp : String) (d : FsNode) : FileInfo :=
  ⟨d.entryName, rp, resolveChild dirPath d.entryName, true, false, d.isSymbolicLinkBit⟩

/-- The `files` array built by the walkers' first `forEach`: admitted
non-directory entries in listing order. -/
def levelFiles (o : ReaddirOptions) (m g : Option (String → Bool))
    (dirPath pfx : String) (dirents : List FsNode) : List FileInfo :=
  dirents.filterMap (fun d =>
    if d.isDirectoryBit then none
    else
      let rp := joinRel pfx d.entryName
      if leafAdmitted o m g d.isSymbolicLinkBit rp then some (mkLeafInfo dirPath rp d)
      else none)

/-- The "Filtering the top directory" condition of the `dirs` loop:
`!isOnlyFile && !(excludesSymlink && dir.isSymbolicLink) &&
(!mtchRE || mtchRE.test(dir.relPath)) && !(ignrRE && ignrRE.test(dir.relPath))`. -/
def dirAdmitted (o : ReaddirOptions) (m g : Option (String → Bool))
    (info : FileInfo) : Bool :=
  !o.isOnlyFile && !(o.excludesSymlink && info.isSymbolicLink) &&
    (match m with | some t => t info.relPath | none => true) &&
    (match g with | some t => !t info.relPath | none => true)

mutual

/-- Shallow embedding of `readdirRecursivelySync` (the recursive core; the
recursive calls of the source always pass `withFileTypes: true`, so the
core works on `FileInfo` lists; top-level projection is separate).
Arguments: the node at path `dp`, the `_prefixDirName` `pfx`.
The source lists the directory first (`fs.readdirSync`), then compiles the
patterns, then partitions and filters. -/
def readdirRecursivelySync (eng : RegexEngine) (o : ReaddirOptions) :
    FsNode → String → String → Except WalkError (List FileInfo)
  | .file _, _, dp => .error (.notADirectory dp)
  | .symlink _ _, _, dp => .error (.notADirectory dp)
  | .baddir _ e, _, _ => .error e
  | .dir _ children, pfx, dp =>
      match compilePat eng o.matchedRegExp with
      | .error e => .error e
      | .ok m =>
        match compilePat eng o.ignoredRegExp with
        | .error e => .error e
        | .ok g =>
          match readdirRecursivelySyncDirs eng o children pfx dp m g with
          | .error e => .error e
          | .ok branches => .ok (levelFiles o m g dp pfx children ++ branches)

/-- The `dirs.forEach` loop of `readdirRecursivelySync`: for each
directory entry, recurse with `_prefixDirName = dir.relPath`, keep the
directory's own descriptor only when admitted, and append the branch;
the first listing failure aborts the loop. -/
def readdirRecursivelySyncDirs (eng : RegexEngine) (o : ReaddirOptions) :
    List FsNode → String → String → Option (String → Bool) → Option (String → Bool) →
    Except WalkError (List FileInfo)
  | [], _, _, _, _ => .ok []
  | d :: rest, pfx, dp, m, g =>
      if d.isDirectoryBit then
        let rp := joinRel pfx d.entryName
        let info := mkDirInfo dp rp d
        match readdirRecursivelySync eng o d rp (resolveChild dp d.entryName) with
        | .error e => .error e
        | .ok sub =>
          match readdirRecursivelySyncDirs eng o rest pfx dp m g with
          | .error e => .error e
          | .ok tail =>
              .ok ((if dirAdmitted o m g info then [info] else []) ++ sub ++ tail)
      else readdirRecursivelySyncDirs eng o rest pfx dp m g

end

/-- Sequencing of the settled subdirectory tasks, in the order their
completions are observed: the first rejection fails the whole
`Promise.all`, otherwise the branches are concatenated in that order. -/
def collectE : List (Except WalkError (List FileInfo)) → Except WalkError (List FileInfo)
  | [] => .ok []
  | .error e :: _ => .error e
  | .ok xs :: rest =>
      match collectE rest with
      | .error e => .error e
      | .ok t => .ok (xs ++ t)

/-- Reindexing of a list by a list of positions. -/
def reorder (perm : List Nat) (xs : List α) : List α :=
  perm.filterMap (fun i => xs[i]?)

/-- The completion order of one level's tasks: every spawned task settles
exactly once, so the observed order is a permutation of the spawn order;
an input that is not a permutation of the task indices is ignored (the
tasks then settle in spawn order). -/
def completeOrder (perm : List Nat) (xs : List α) : List α :=
  if perm.isPerm (List.range xs.length) then reorder perm xs else xs

mutual

/-- Shallow embedding of the concurrent `readdirRecursively` (recursive
core, as for the sync variant).  `sched` assigns to every tree position
(`tpos`, the list of spawn indices from the root) the completion order of
that level's subdirectory tasks; the source appends each task's branch to
the shared `dirsBranches` as the task completes, so branches are merged in
completion order, and the first rejected task rejects the whole call. -/
def readdirRecursively (eng : RegexEngine) (o : ReaddirOptions)
    (sched : List Nat → List Nat) :
    FsNode → List Nat → String → String → Except WalkError (List FileInfo)
  | .file _, _, _, dp => .error (.notADirectory dp)
  | .symlink _ _, _, _, dp => .error (.notADirectory dp)
  | .baddir _ e, _, _, _ => .error e
  | .dir _ children, tpos, pfx, dp =>
      match compilePat eng o.matchedRegExp with
      | .error e => .error e
      | .ok m =>
        match compilePat eng o.ignoredRegExp with
        | .error e => .error e
        | .ok g =>
          match collectE (completeOrder (sched tpos)
              (readdirRecursivelyTasks eng o sched children tpos 0 pfx dp m g)) with
          | .error e => .error e
          | .ok branches => .ok (levelFiles o m g dp pfx children ++ branches)

/-- The tasks spawned by `dirs.map(async (dir) => ...)`, in spawn order
(`i` is the spawn index of the next container).  Each task recurses into
its directory and yields the branch it would append: the directory's own
descriptor when admitted, followed by the subdirectory's list. -/
def readdirRecursivelyTasks (eng : RegexEngine) (o : ReaddirOptions)
    (sched : List Nat → List Nat) :
    List FsNode → List Nat → Nat → String → String →
    Option (String → Bool) → Option (String → Bool) →
    List (Except WalkError (List FileInfo))
  | [], _, _, _, _, _, _ => []
  | d :: rest, tpos, i, pfx, dp, m, g =>
      if d.isDirectoryBit then
        (match readdirRecursively eng o sched d (tpos ++ [i])
            (joinRel pfx d.entryName) (resolveChild dp d.entryName) with
         | .error e => .error e
         | .ok sub =>
             .ok ((if dirAdmitted o m g (mkDirInfo dp (joinRel pfx d.entryName) d) then
                     [mkDirInfo dp (joinRel pfx d.entryName) d]
                   else []) ++ sub)) ::
        readdirRecursivelyTasks eng o sched rest tpos (i + 1) pfx dp m g
      else readdirRecursivelyTasks eng o sched rest tpos i pfx dp m g

end

/-- All leaf descriptors of one level, unfiltered, in listing order. -/
def levelLeaves (dirPath pfx : String) (dirents : List FsNode) : List FileInfo :=
  dirents.filterMap (fun d =>
    if d.isDirectoryBit then none
    else some (mkLeafInfo dirPath (joinRel pfx d.entryName) d))

mutual

/-- Every descriptor of the tree, unfiltered, in the walkers' output
order: the level's leaves first, then one branch per container in listing
order (container descriptor followed by its descendants). -/
def allFileInfos : FsNode → String → String → List FileInfo
  | .dir _ children, pfx, dp => levelLeaves dp pfx children ++ allBranches children pfx dp
  | _, _, _ => []

/-- The unfiltered branches of one level, in listing order. -/
def allBranches : List FsNode → String → String → List FileInfo
  | [], _, _ => []
  | d :: rest, pfx, dp =>
      if d.isDirectoryBit then
        (mkDirInfo dp (joinRel pfx d.entryName) d ::
            allFileInfos d (joinRel pfx d.entryName) (resolveChild dp d.entryName)) ++
          allBranches rest pfx dp
      else allBranches rest pfx dp

end

/-- The leaf filter expressed over the built descriptor. -/
def leafInfoAdmitted (o : ReaddirOptions) (m g : Option (String → Bool))
    (x : FileInfo) : Bool :=
  !o.isOnlyDir && !(o.excludesSymlink && x.isSymbolicLink) &&
    (match m with | some t => t x.relPath | none => true) &&
    (match g with | some t => !t x.relPath | none => true)

/-- The admission predicate a descriptor is subject to: the container
filter of the `dirs` loop for directories, the leaf filter otherwise. -/
def admitsInfo (o : ReaddirOptions) (m g : Option (String → Bool))
    (x : FileInfo) : Bool :=
  if x.isDirectory then dirAdmitted o m g x else leafInfoAdmitted o m g x

mutual

/-- The listing failures a walk of the tree runs into, in sequential
traversal order. -/
def listingErrors : FsNode → List WalkError
  | .baddir _ e => [e]
  | .dir _ children => listingErrorsList children
  | _ => []

/-- Listing failures below a list of entries, in order. -/
def listingErrorsList : List FsNode → List WalkError
  | [] => []
  | d :: rest => listingErrors d ++ listingErrorsList rest

end

mutual

/-- Rewriting of every symbolic link's target (the link name decides the
new target); directory structure and entry types are untouched. -/
def retargetLinks (f : String → LinkTarget → LinkTarget) : FsNode → FsNode
  | .symlink nm t => .symlink nm (f nm t)
  | .dir nm children => .dir nm (retargetLinksList f children)
  | .file nm => .file nm
  | .baddir nm e => .baddir nm e

/-- `retargetLinks` over a list of entries. -/
def retargetLinksList (f : String → LinkTarget → LinkTarget) : List FsNode → List FsNode
  | [] => []
  | d :: rest => retargetLinks f d :: retargetLinksList f rest

end

mutual

/-- The traversal algorithm as the spec words it (§4.3, with the
predicates of the already-built FilterPredicateSet): build one descriptor
per entry, partition into leaves and containers, filter the leaves by
`admitsLeaf`, recurse into every container, form each branch as the
container's own descriptor (only if `admitsContainer` admits it) followed
by its descendant list, and concatenate admitted leaves with the branches
in the containers' listing order. -/
def specWalk (admitL admitC : FileInfo → Bool) :
    FsNode → String → String → Except WalkError (List FileInfo)
  | .file _, _, dp => .error (.notADirectory dp)
  | .symlink _ _, _, dp => .error (.notADirectory dp)
  | .baddir _ e, _, _ => .error e
  | .dir _ entries, pfx, dp =>
      let descs := entries.map (fun d =>
        let rp := joinRel pfx d.entryName
        if d.isDirectoryBit then mkDirInfo dp rp d else mkLeafInfo dp rp d)
      let leaves := (descs.filter (fun x => !x.isDirectory)).filter admitL
      match specBranches admitL admitC entries pfx dp with
      | .error e => .error e
      | .ok brs => .ok (leaves ++ brs.flatten)

/-- The branches of one level per the spec: one per container, in listing
order. -/
def specBranches (admitL admitC : FileInfo → Bool) :
    List FsNode → String → String → Except WalkError (List (List FileInfo))
  | [], _, _ => .ok []
  | d :: rest, pfx, dp =>
      if d.isDirectoryBit then
        match specWalk admitL admitC d (joinRel pfx d.entryName) (resolveChild dp d.entryName) with
        | .error e => .error e
        | .ok sub =>
          match specBranches admitL admitC rest pfx dp with
          | .error e => .error e
          | .ok brs =>
              .ok (((if admitC (mkDirInfo dp (joinRel pfx d.entryName) d) then
                       [mkDirInfo dp (joinRel pfx d.entryName) d]
                     else []) ++ sub) :: brs)
      else specBranches admitL admitC rest pfx dp

end

deriving instance DecidableEq for Except

/-- A trivial engine (no valid pattern sources) for concrete runs. -/
def trivEng : RegexEngine := ⟨fun _ => none⟩

/-- Options with every filter off. -/
def defOpts : ReaddirOptions := ⟨false, false, false, none, none, false⟩

/-- The ResultProjector of the top-level call: the source checks
`withFileTypes` last and maps to `relPath` strings by default (recursive
calls always force `withFileTypes`, so the core works on descriptors). -/
def readdirProjection (o : ReaddirOptions) (l : List FileInfo) :
    List String ⊕ List FileInfo :=
  if o.withFileTypes then .inr l else .inl (l.map (fun x => x.relPath))

/-- Reindexing by all positions in order is the identity. -/
theorem filterMap_getElem_range (xs : List α) :
    (List.range xs.length).filterMap (fun i => xs[i]?) = xs := by
  induction xs with
  | nil => rfl
  | cons x xs ih =>
      rw [List.length_cons, List.range_succ_eq_map, List.filterMap_cons]
      simp only [List.getElem?_cons_zero, List.filterMap_map]
      have hc : ((fun i => (x :: xs)[i]?) ∘ Nat.succ) = (fun i => xs[i]?) :=
        funext (fun i => by simp)
      rw [hc, ih]

/-- Reordering by a completion order is a permutation of the spawn
order. -/
theorem completeOrder_perm (p : List Nat) (xs : List α) :
    (completeOrder p xs).Perm xs := by
  unfold completeOrder
  split
  · rename_i h
    have hp : p.Perm (List.range xs.length) := List.isPerm_iff.mp h
    have h2 := hp.filterMap (fun i => xs[i]?)
    rw [filterMap_getElem_range] at h2
    exact h2
  · exact List.Perm.refl xs

/-- The degenerate schedule: with no reindexing information the tasks
settle in spawn order. -/
theorem completeOrder_nil (xs : List α) : completeOrder [] xs = xs := by
  cases xs with
  | nil => rfl
  | cons y ys =>
      unfold completeOrder
      rw [if_neg]
      intro h
      have h2 := (List.isPerm_iff.mp h).symm.eq_nil
      rw [List.range_eq_nil] at h2
      simp at h2

/-- Outcome relation between two walk results: both fail, or both succeed
with the same descriptor multiset. -/
def ExceptRel (a b : Except WalkError (List FileInfo)) : Prop :=
  (∃ e e', a = .error e ∧ b = .error e') ∨
  (∃ l l', a = .ok l ∧ b = .ok l' ∧ l.Perm l')

theorem exceptRel_refl (a : Except WalkError (List FileInfo)) : ExceptRel a a := by
  cases a with
  | error e => exact Or.inl ⟨e, e, rfl, rfl⟩
  | ok l => exact Or.inr ⟨l, l, rfl, rfl, List.Perm.refl l⟩

theorem exceptRel_trans {a b c : Except WalkError (List FileInfo)}
    (h1 : ExceptRel a b) (h2 : ExceptRel b c) : ExceptRel a c := by
  rcases h1 with ⟨e, e', ha, hb⟩ | ⟨l, l', ha, hb, hp⟩
  · rcases h2 with ⟨f, f', hb', hc⟩ | ⟨k, k', hb', _, _⟩
    · exact Or.inl ⟨e, f', ha, hc⟩
    · rw [hb] at hb'; cases hb'
  · rcases h2 with ⟨f, f', hb', _⟩ | ⟨k, k', hb', hc, hq⟩
    · rw [hb] at hb'; cases hb'
    · rw [hb] at hb'
      cases hb'
      exact Or.inr ⟨l, k', ha, hc, hp.trans hq⟩

/-- `collectE` is stable, up to outcome relation, under permuting the
settled tasks. -/
theorem collectE_perm {rs rs' : List (Except WalkError (List FileInfo))}
    (h : rs.Perm rs') : ExceptRel (collectE rs) (collectE rs') := by
  induction h with
  | nil => exact exceptRel_refl _
  | cons r _ ih =>
      cases r with
      | error e => exact Or.inl ⟨e, e, rfl, rfl⟩
      | ok xs =>
          rcases ih with ⟨e, e', h1, h2⟩ | ⟨l, l', h1, h2, hp⟩
          · exact Or.inl ⟨e, e', by simp [collectE, h1], by simp [collectE, h2]⟩
          · exact Or.inr ⟨xs ++ l, xs ++ l', by simp [collectE, h1],
              by simp [collectE, h2], hp.append_left xs⟩
  | swap r₁ r₂ t =>
      cases r₁ with
      | error e =>
          cases r₂ with
          | error f => exact Or.inl ⟨f, e, by simp [collectE], by simp [collectE]⟩
          | ok ys => exact Or.inl ⟨e, e, by simp [collectE], by simp [collectE]⟩
      | ok xs =>
          cases r₂ with
          | error f => exact Or.inl ⟨f, f, by simp [collectE], by simp [collectE]⟩
          | ok ys =>
              cases ht : collectE t with
              | error g => exact Or.inl ⟨g, g, by simp [collectE, ht], by simp [collectE, ht]⟩
              | ok l =>
                  refine Or.inr ⟨ys ++ (xs ++ l), xs ++ (ys ++ l),
                    by simp [collectE, ht], by simp [collectE, ht], ?_⟩
                  rw [← List.append_assoc, ← List.append_assoc]
                  exact (List.perm_append_comm).append_right l
  | trans _ _ ih1 ih2 => exact exceptRel_trans ih1 ih2

/-- If a permuted task list collects to a failure, so does the original
(and conversely a success stays a success with a permuted flattening). -/
theorem collectE_error_mem {rs : List (Except WalkError (List FileInfo))} {e : WalkError}
    (h : collectE rs = .error e) : (Except.error e) ∈ rs := by
  induction rs with
  | nil => cases h
  | cons r rest ih =>
      cases r with
      | error f =>
          simp only [collectE] at h
          cases h
          exact List.mem_cons_self _ _
      | ok xs =>
          simp only [collectE] at h
          cases ht : collectE rest with
          | error g =>
              rw [ht] at h
              cases h
              exact List.mem_cons_of_mem _ (ih ht)
          | ok l => rw [ht] at h; cases h

/-- A successful collection has no failed task. -/
theorem collectE_ok_no_error : ∀ {rs : List (Except WalkError (List FileInfo))}
    {l : List FileInfo}, collectE rs = .ok l → ∀ e, (Except.error e) ∉ rs := by
  intro rs
  induction rs with
  | nil => intro l _ e hmem; cases hmem
  | cons r rest ih =>
      intro l h e hmem
      cases r with
      | error f => simp [collectE] at h
      | ok xs =>
          simp only [collectE] at h
          cases ht : collectE rest with
          | error g => rw [ht] at h; cases h
          | ok t =>
              rcases List.mem_cons.mp hmem with h1 | h1
              · cases h1
              · exact ih ht e h1

mutual

/-- Concurrent versus sequential walk, for an arbitrary completion
schedule: either both fail, or both succeed with the same descriptor
multiset. -/
theorem readdirRel (eng : RegexEngine) (o : ReaddirOptions)
    (sched : List Nat → List Nat) :
    ∀ (t : FsNode) (tpos : List Nat) (pfx dp : String),
      ExceptRel (readdirRecursively eng o sched t tpos pfx dp)
        (readdirRecursivelySync eng o t pfx dp)
  | .file _, _, _, _ => exceptRel_refl _
  | .symlink _ _, _, _, _ => exceptRel_refl _
  | .baddir _ _, _, _, _ => exceptRel_refl _
  | .dir nm children, tpos, pfx, dp => by
      cases hm : compilePat eng o.matchedRegExp with
      | error e =>
          exact Or.inl ⟨e, e, by simp [readdirRecursively, hm],
            by simp [readdirRecursivelySync, hm]⟩
      | ok m =>
        cases hg : compilePat eng o.ignoredRegExp with
        | error e =>
            exact Or.inl ⟨e, e, by simp [readdirRecursively, hm, hg],
              by simp [readdirRecursivelySync, hm, hg]⟩
        | ok g =>
          have h1 : ExceptRel
              (collectE (completeOrder (sched tpos)
                (readdirRecursivelyTasks eng o sched children tpos 0 pfx dp m g)))
              (collectE (readdirRecursivelyTasks eng o sched children tpos 0 pfx dp m g)) :=
            collectE_perm (completeOrder_perm _ _)
          have h3 := exceptRel_trans h1
            (readdirTasksRel eng o sched children tpos 0 pfx dp m g)
          rcases h3 with ⟨e, e', hA, hB⟩ | ⟨l, l', hA, hB, hp⟩
          · exact Or.inl ⟨e, e', by simp [readdirRecursively, hm, hg, hA],
              by simp [readdirRecursivelySync, hm, hg, hB]⟩
          · exact Or.inr ⟨levelFiles o m g dp pfx children ++ l,
              levelFiles o m g dp pfx children ++ l',
              by simp [readdirRecursively, hm, hg, hA],
              by simp [readdirRecursivelySync, hm, hg, hB],
              hp.append_left _⟩

/-- The settled tasks of one level collect, up to outcome relation, to
what the sequential `dirs` loop produces. -/
theorem readdirTasksRel (eng : RegexEngine) (o : ReaddirOptions)
    (sched : List Nat → List Nat) :
    ∀ (cs : List FsNode) (tpos : List Nat) (i : Nat) (pfx dp : String)
      (m g : Option (String → Bool)),
      ExceptRel (collectE (readdirRecursivelyTasks eng o sched cs tpos i pfx dp m g))
        (readdirRecursivelySyncDirs eng o cs pfx dp m g)
  | [], _, _, _, _, _, _ => exceptRel_refl _
  | d :: rest, tpos, i, pfx, dp, m, g => by
      cases hd : d.isDirectoryBit with
      | false =>
          simp only [readdirRecursivelyTasks, readdirRecursivelySyncDirs, hd,
            Bool.false_eq_true, if_false]
          exact readdirTasksRel eng o sched rest tpos i pfx dp m g
      | true =>
          have hsub := readdirRel eng o sched d (tpos ++ [i])
            (joinRel pfx d.entryName) (resolveChild dp d.entryName)
          have htail := readdirTasksRel eng o sched rest tpos (i + 1) pfx dp m g
          rcases hsub with ⟨e, e', hA, hB⟩ | ⟨l, l', hA, hB, hp⟩
          · exact Or.inl ⟨e, e',
              by simp [readdirRecursivelyTasks, hd, hA, collectE],
              by simp [readdirRecursivelySyncDirs, hd, hB]⟩
          · rcases htail with ⟨f, f', hC, hD⟩ | ⟨t, t', hC, hD, hq⟩
            · exact Or.inl ⟨f, f',
                by simp [readdirRecursivelyTasks, hd, hA, collectE, hC],
                by simp [readdirRecursivelySyncDirs, hd, hB, hD]⟩
            · refine Or.inr ⟨(if dirAdmitted o m g (mkDirInfo dp (joinRel pfx d.entryName) d) then
                  [mkDirInfo dp (joinRel pfx d.entryName) d] else []) ++ l ++ t,
                (if dirAdmitted o m g (mkDirInfo dp (joinRel pfx d.entryName) d) then
                  [mkDirInfo dp (joinRel pfx d.entryName) d] else []) ++ l' ++ t',
                by simp [readdirRecursivelyTasks, hd, hA, collectE, hC],
                by simp [readdirRecursivelySyncDirs, hd, hB, hD],
                ?_⟩
              rw [List.append_assoc, List.append_assoc]
              exact (hp.append hq).append_left _

end

mutual

/-- With tasks settling in spawn order the concurrent walk coincides with
the sequential walk exactly. -/
theorem readdirSeqEq (eng : RegexEngine) (o : ReaddirOptions) :
    ∀ (t : FsNode) (tpos : List Nat) (pfx dp : String),
      readdirRecursively eng o (fun _ => []) t tpos pfx dp =
        readdirRecursivelySync eng o t pfx dp
  | .file _, _, _, _ => rfl
  | .symlink _ _, _, _, _ => rfl
  | .baddir _ _, _, _, _ => rfl
  | .dir nm children, tpos, pfx, dp => by
      simp only [readdirRecursively, readdirRecursivelySync, completeOrder_nil]
      cases hm : compilePat eng o.matchedRegExp with
      | error e => rfl
      | ok m =>
        dsimp only
        cases hg : compilePat eng o.ignoredRegExp with
        | error e => rfl
        | ok g =>
            dsimp only
            rw [readdirTasksSeqEq eng o children tpos 0 pfx dp m g]

/-- Spawn-order collection of the tasks equals the sequential `dirs`
loop. -/
theorem readdirTasksSeqEq (eng : RegexEngine) (o : ReaddirOptions) :
    ∀ (cs : List FsNode) (tpos : List Nat) (i : Nat) (pfx dp : String)
      (m g : Option (String → Bool)),
      collectE (readdirRecursivelyTasks eng o (fun _ => []) cs tpos i pfx dp m g) =
        readdirRecursivelySyncDirs eng o cs pfx dp m g
  | [], _, _, _, _, _, _ => rfl
  | d :: rest, tpos, i, pfx, dp, m, g => by
      cases hd : d.isDirectoryBit with
      | false =>
          simp only [readdirRecursivelyTasks, readdirRecursivelySyncDirs, hd,
            Bool.false_eq_true, if_false]
          exact readdirTasksSeqEq eng o rest tpos i pfx dp m g
      | true =>
          simp only [readdirRecursivelyTasks, readdirRecursivelySyncDirs, hd, if_true]
          rw [readdirSeqEq eng o d (tpos ++ [i]) (joinRel pfx d.entryName)
            (resolveChild dp d.entryName)]
          cases hs : readdirRecursivelySync eng o d (joinRel pfx d.entryName)
              (resolveChild dp d.entryName) with
          | error e => rfl
          | ok l =>
              simp only [collectE]
              rw [readdirTasksSeqEq eng o rest tpos (i + 1) pfx dp m g]

end

/-- A built leaf descriptor is admitted exactly by the leaf filter. -/
theorem admitsInfo_mkLeafInfo (o : ReaddirOptions) (m g : Option (String → Bool))
    (dp rp : String) (d : FsNode) :
    admitsInfo o m g (mkLeafInfo dp rp d) = leafAdmitted o m g d.isSymbolicLinkBit rp := rfl

/-- A built directory descriptor is admitted exactly by the container
filter. -/
theorem admitsInfo_mkDirInfo (o : ReaddirOptions) (m g : Option (String → Bool))
    (dp rp : String) (d : FsNode) :
    admitsInfo o m g (mkDirInfo dp rp d) = dirAdmitted o m g (mkDirInfo dp rp d) := rfl

/-- The `files` array is the unfiltered leaf row filtered by the
admission predicate. -/
theorem levelFiles_eq_filter (o : ReaddirOptions) (m g : Option (String → Bool))
    (dp pfx : String) (ds : List FsNode) :
    levelFiles o m g dp pfx ds = (levelLeaves dp pfx ds).filter (admitsInfo o m g) := by
  induction ds with
  | nil => rfl
  | cons d rest ih =>
      simp only [levelFiles, levelLeaves, List.filterMap_cons] at ih ⊢
      cases hd : d.isDirectoryBit with
      | true => simpa using ih
      | false =>
          simp only [Bool.false_eq_true, if_false]
          cases ha : leafAdmitted o m g d.isSymbolicLinkBit (joinRel pfx d.entryName) with
          | true =>
              simp only [if_true, List.filter_cons, admitsInfo_mkLeafInfo, ha]
              rw [ih]
          | false =>
              simp only [Bool.false_eq_true, if_false, List.filter_cons,
                admitsInfo_mkLeafInfo, ha]
              rw [ih]

mutual

/-- Filter characterization of the sequential walk: on a tree with no
listing failures and compilable patterns, the output is exactly the
unfiltered descriptor list filtered by the per-descriptor admission
predicate — so inclusion never depends on any other entry's admission. -/
theorem readdirSyncChar (eng : RegexEngine) (o : ReaddirOptions)
    {m g : Option (String → Bool)}
    (hm : compilePat eng o.matchedRegExp = .ok m)
    (hg : compilePat eng o.ignoredRegExp = .ok g) :
    ∀ (t : FsNode) (pfx dp : String), t.isDirectoryBit = true → listingErrors t = [] →
      readdirRecursivelySync eng o t pfx dp =
        .ok ((allFileInfos t pfx dp).filter (admitsInfo o m g))
  | .file _, _, _ => by intro h _; cases h
  | .symlink _ _, _, _ => by intro h _; cases h
  | .baddir _ e, _, _ => by intro _ h2; simp [listingErrors] at h2
  | .dir nm children, pfx, dp => by
      intro _ herr
      simp only [listingErrors] at herr
      simp only [readdirRecursivelySync, hm, hg]
      rw [readdirSyncDirsChar eng o hm hg children pfx dp herr]
      simp only [allFileInfos, List.filter_append, levelFiles_eq_filter]

/-- Filter characterization of the sequential `dirs` loop. -/
theorem readdirSyncDirsChar (eng : RegexEngine) (o : ReaddirOptions)
    {m g : Option (String → Bool)}
    (hm : compilePat eng o.matchedRegExp = .ok m)
    (hg : compilePat eng o.ignoredRegExp = .ok g) :
    ∀ (cs : List FsNode) (pfx dp : String), listingErrorsList cs = [] →
      readdirRecursivelySyncDirs eng o cs pfx dp m g =
        .ok ((allBranches cs pfx dp).filter (admitsInfo o m g))
  | [], _, _ => by intro _; rfl
  | d :: rest, pfx, dp => by
      intro herr
      simp only [listingErrorsList, List.append_eq_nil] at herr
      cases hd : d.isDirectoryBit with
      | false =>
          simp only [readdirRecursivelySyncDirs, allBranches, hd,
            Bool.false_eq_true, if_false]
          exact readdirSyncDirsChar eng o hm hg rest pfx dp herr.2
      | true =>
          simp only [readdirRecursivelySyncDirs, allBranches, hd, if_true]
          rw [readdirSyncChar eng o hm hg d (joinRel pfx d.entryName)
            (resolveChild dp d.entryName) hd herr.1]
          rw [readdirSyncDirsChar eng o hm hg rest pfx dp herr.2]
          simp only [List.filter_append, List.filter_cons, admitsInfo_mkDirInfo]
          by_cases ha : dirAdmitted o m g (mkDirInfo dp (joinRel pfx d.entryName) d) = true
          · simp [ha]
          · simp [ha]

end

/-- A non-directory entry has no listing failures below it. -/
theorem listingErrors_of_not_dirBit {d : FsNode} (hd : d.isDirectoryBit = false) :
    listingErrors d = [] := by
  cases d with
  | file _ => rfl
  | symlink _ _ => rfl
  | dir _ _ => cases hd
  | baddir _ _ => cases hd

mutual

/-- Failure control of the concurrent walk, for every schedule: a failure
carries one of the tree's own listing errors, and a success implies the
tree had none (given compilable patterns). -/
theorem readdirCtl (eng : RegexEngine) (o : ReaddirOptions)
    (sched : List Nat → List Nat) {m g : Option (String → Bool)}
    (hm : compilePat eng o.matchedRegExp = .ok m)
    (hg : compilePat eng o.ignoredRegExp = .ok g) :
    ∀ (t : FsNode) (tpos : List Nat) (pfx dp : String), t.isDirectoryBit = true →
      (∀ e, readdirRecursively eng o sched t tpos pfx dp = .error e → e ∈ listingErrors t) ∧
      (∀ l, readdirRecursively eng o sched t tpos pfx dp = .ok l → listingErrors t = [])
  | .file _, _, _, _ => by intro h; cases h
  | .symlink _ _, _, _, _ => by intro h; cases h
  | .baddir _ e0, _, _, _ => by
      intro _
      constructor
      · intro e herr
        simp only [readdirRecursively] at herr
        cases herr
        simp [listingErrors]
      · intro l hok
        simp [readdirRecursively] at hok
  | .dir nm children, tpos, pfx, dp => by
      intro _
      constructor
      · intro e herr
        simp only [readdirRecursively, hm, hg] at herr
        cases hc : collectE (completeOrder (sched tpos)
            (readdirRecursivelyTasks eng o sched children tpos 0 pfx dp m g)) with
        | error f =>
            rw [hc] at herr
            cases herr
            have hmem := collectE_error_mem hc
            rw [(completeOrder_perm _ _).mem_iff] at hmem
            simp only [listingErrors]
            exact (readdirTasksCtl eng o sched hm hg children tpos 0 pfx dp).1 _ hmem
        | ok t => rw [hc] at herr; cases herr
      · intro l hok
        simp only [readdirRecursively, hm, hg] at hok
        cases hc : collectE (completeOrder (sched tpos)
            (readdirRecursivelyTasks eng o sched children tpos 0 pfx dp m g)) with
        | error f => rw [hc] at hok; cases hok
        | ok t =>
            have hno := collectE_ok_no_error hc
            simp only [listingErrors]
            refine (readdirTasksCtl eng o sched hm hg children tpos 0 pfx dp).2 ?_
            intro e hmem
            exact hno e ((completeOrder_perm _ _).mem_iff.mpr hmem)

/-- Failure control of one level's tasks. -/
theorem readdirTasksCtl (eng : RegexEngine) (o : ReaddirOptions)
    (sched : List Nat → List Nat) {m g : Option (String → Bool)}
    (hm : compilePat eng o.matchedRegExp = .ok m)
    (hg : compilePat eng o.ignoredRegExp = .ok g) :
    ∀ (cs : List FsNode) (tpos : List Nat) (i : Nat) (pfx dp : String),
      (∀ e, (Except.error e) ∈ readdirRecursivelyTasks eng o sched cs tpos i pfx dp m g →
        e ∈ listingErrorsList cs) ∧
      ((∀ e, (Except.error e) ∉ readdirRecursivelyTasks eng o sched cs tpos i pfx dp m g) →
        listingErrorsList cs = [])
  | [], _, _, _, _ => by
      constructor
      · intro e hmem; cases hmem
      · intro _; rfl
  | d :: rest, tpos, i, pfx, dp => by
      cases hd : d.isDirectoryBit with
      | false =>
          have hrest := readdirTasksCtl eng o sched hm hg rest tpos i pfx dp
          constructor
          · intro e hmem
            simp only [readdirRecursivelyTasks, hd, Bool.false_eq_true, if_false] at hmem
            simp only [listingErrorsList, listingErrors_of_not_dirBit hd, List.nil_append]
            exact hrest.1 e hmem
          · intro hno
            simp only [readdirRecursivelyTasks, hd, Bool.false_eq_true, if_false] at hno
            simp only [listingErrorsList, listingErrors_of_not_dirBit hd, List.nil_append]
            exact hrest.2 hno
      | true =>
          have hnode := readdirCtl eng o sched hm hg d (tpos ++ [i])
            (joinRel pfx d.entryName) (resolveChild dp d.entryName) hd
          have hrest := readdirTasksCtl eng o sched hm hg rest tpos (i + 1) pfx dp
          constructor
          · intro e hmem
            simp only [readdirRecursivelyTasks, hd, if_true] at hmem
            rcases List.mem_cons.mp hmem with h1 | h1
            · cases hs : readdirRecursively eng o sched d (tpos ++ [i])
                  (joinRel pfx d.entryName) (resolveChild dp d.entryName) with
              | error f =>
                  rw [hs] at h1
                  cases h1
                  simp only [listingErrorsList]
                  exact List.mem_append_left _ (hnode.1 _ hs)
              | ok sub => rw [hs] at h1; cases h1
            · simp only [listingErrorsList]
              exact List.mem_append_right _ (hrest.1 e h1)
          · intro hno
            simp only [readdirRecursivelyTasks, hd, if_true] at hno
            simp only [listingErrorsList]
            cases hs : readdirRecursively eng o sched d (tpos ++ [i])
                (joinRel pfx d.entryName) (resolveChild dp d.entryName) with
            | error f =>
                exact absurd (List.mem_cons_self _ _)
                  (by rw [hs] at hno; exact hno f)
            | ok sub =>
                rw [hnode.2 sub hs, List.nil_append]
                refine hrest.2 ?_
                intro e hmem
                exact hno e (List.mem_cons_of_mem _ hmem)

end

/-- A successful sequential walk can only start at a real directory. -/
theorem syncOk_isDir {eng : RegexEngine} {o : ReaddirOptions} {t : FsNode}
    {pfx dp : String} {l : List FileInfo}
    (h : readdirRecursivelySync eng o t pfx dp = .ok l) : t.isDirectoryBit = true := by
  cases t with
  | file _ => cases h
  | symlink _ _ => cases h
  | baddir _ _ => cases h
  | dir _ _ => rfl

/-- A successful sequential walk implies both patterns compiled. -/
theorem syncOk_compile {eng : RegexEngine} {o : ReaddirOptions} {nm : String}
    {cs : List FsNode} {pfx dp : String} {l : List FileInfo}
    (h : readdirRecursivelySync eng o (.dir nm cs) pfx dp = .ok l) :
    ∃ m g, compilePat eng o.matchedRegExp = .ok m ∧ compilePat eng o.ignoredRegExp = .ok g := by
  cases hm : compilePat eng o.matchedRegExp with
  | error e => simp [readdirRecursivelySync, hm] at h
  | ok m =>
    cases hg : compilePat eng o.ignoredRegExp with
    | error e => simp [readdirRecursivelySync, hm, hg] at h
    | ok g => exact ⟨m, g, rfl, rfl⟩

/-- Full inversion of a successful sequential walk: the tree is a
failure-free directory, the patterns compile, and the output is the
filtered descriptor list. -/
theorem syncOk_inv {eng : RegexEngine} {o : ReaddirOptions} {t : FsNode}
    {pfx dp : String} {l : List FileInfo}
    (h : readdirRecursivelySync eng o t pfx dp = .ok l) :
    ∃ m g, compilePat eng o.matchedRegExp = .ok m ∧ compilePat eng o.ignoredRegExp = .ok g ∧
      listingErrors t = [] ∧
      l = (allFileInfos t pfx dp).filter (admitsInfo o m g) := by
  have hdir := syncOk_isDir h
  cases t with
  | file _ => cases hdir
  | symlink _ _ => cases hdir
  | baddir _ _ => cases h
  | dir nm cs =>
      obtain ⟨m, g, hm, hg⟩ := syncOk_compile h
      have hasync : readdirRecursively eng o (fun _ => []) (.dir nm cs) [] pfx dp = .ok l := by
        rw [readdirSeqEq]; exact h
      have herr := (readdirCtl eng o (fun _ => []) hm hg (.dir nm cs) [] pfx dp rfl).2 l hasync
      have hchar := readdirSyncChar eng o hm hg (.dir nm cs) pfx dp rfl herr
      rw [h] at hchar
      cases hchar
      exact ⟨m, g, hm, hg, herr, rfl⟩

/-- A well-formed descriptor: exactly one of the three type flags is set
(real directory, real file, or symbolic link). -/
def wellTyped (x : FileInfo) : Prop :=
  (x.isDirectory = true ∧ x.isFile = false ∧ x.isSymbolicLink = false) ∨
  (x.isDirectory = false ∧ x.isFile = true ∧ x.isSymbolicLink = false) ∨
  (x.isDirectory = false ∧ x.isFile = false ∧ x.isSymbolicLink = true)

/-- A real directory entry is never reported as a symbolic link. -/
theorem symBit_false_of_dirBit {d : FsNode} (hd : d.isDirectoryBit = true) :
    d.isSymbolicLinkBit = false := by
  cases d with
  | file _ => cases hd
  | symlink _ _ => cases hd
  | dir _ _ => rfl
  | baddir _ _ => rfl

/-- Every unfiltered leaf descriptor is well typed. -/
theorem levelLeaves_wellTyped (dp pfx : String) (ds : List FsNode) :
    ∀ x ∈ levelLeaves dp pfx ds, wellTyped x := by
  induction ds with
  | nil => intro x hx; cases hx
  | cons d rest ih =>
      intro x hx
      simp only [levelLeaves, List.filterMap_cons] at hx
      cases d with
      | file nm =>
          rcases List.mem_cons.mp hx with h1 | h1
          · rw [h1]; exact Or.inr (Or.inl ⟨rfl, rfl, rfl⟩)
          · exact ih x h1
      | symlink nm tg =>
          rcases List.mem_cons.mp hx with h1 | h1
          · rw [h1]; exact Or.inr (Or.inr ⟨rfl, rfl, rfl⟩)
          · exact ih x h1
      | dir nm cs => exact ih x hx
      | baddir nm e => exact ih x hx

mutual

/-- Every unfiltered descriptor of a tree is well typed. -/
theorem allFileInfos_wellTyped :
    ∀ (t : FsNode) (pfx dp : String), ∀ x ∈ allFileInfos t pfx dp, wellTyped x
  | .file _, _, _ => by intro x hx; cases hx
  | .symlink _ _, _, _ => by intro x hx; cases hx
  | .baddir _ _, _, _ => by intro x hx; cases hx
  | .dir nm children, pfx, dp => by
      intro x hx
      simp only [allFileInfos] at hx
      rcases List.mem_append.mp hx with h1 | h1
      · exact levelLeaves_wellTyped dp pfx children x h1
      · exact allBranches_wellTyped children pfx dp x h1

/-- Every unfiltered branch descriptor is well typed. -/
theorem allBranches_wellTyped :
    ∀ (cs : List FsNode) (pfx dp : String), ∀ x ∈ allBranches cs pfx dp, wellTyped x
  | [], _, _ => by intro x hx; cases hx
  | d :: rest, pfx, dp => by
      intro x hx
      cases hd : d.isDirectoryBit with
      | false =>
          simp only [allBranches, hd, Bool.false_eq_true, if_false] at hx
          exact allBranches_wellTyped rest pfx dp x hx
      | true =>
          simp only [allBranches, hd, if_true, List.cons_append] at hx
          rcases List.mem_cons.mp hx with h1 | h1
          · rw [h1]; exact Or.inl ⟨rfl, rfl, symBit_false_of_dirBit hd⟩
          · rcases List.mem_append.mp h1 with h2 | h2
            · exact allFileInfos_wellTyped d (joinRel pfx d.entryName)
                (resolveChild dp d.entryName) x h2
            · exact allBranches_wellTyped rest pfx dp x h2

end

/-- On a list of well-typed descriptors the three type-flag counts
partition the length. -/
theorem count_flags (l : List FileInfo) (h : ∀ x ∈ l, wellTyped x) :
    (l.filter (fun x => x.isDirectory)).length +
      (l.filter (fun x => x.isFile)).length +
      (l.filter (fun x => x.isSymbolicLink)).length = l.length := by
  induction l with
  | nil => rfl
  | cons x rest ih =>
      have hx := h x (List.mem_cons_self _ _)
      have hrest := ih (fun y hy => h y (List.mem_cons_of_mem _ hy))
      rcases hx with ⟨h1, h2, h3⟩ | ⟨h1, h2, h3⟩ | ⟨h1, h2, h3⟩ <;>
        simp only [List.filter_cons, h1, h2, h3, Bool.false_eq_true, if_true, if_false,
          List.length_cons] <;> omega

/-- Retargeting keeps the entry name. -/
theorem retarget_entryName (f : String → LinkTarget → LinkTarget) (d : FsNode) :
    (retargetLinks f d).entryName = d.entryName := by cases d <;> rfl

/-- Retargeting keeps the directory bit. -/
theorem retarget_dirBit (f : String → LinkTarget → LinkTarget) (d : FsNode) :
    (retargetLinks f d).isDirectoryBit = d.isDirectoryBit := by cases d <;> rfl

/-- Retargeting keeps the built leaf descriptor. -/
theorem mkLeafInfo_retarget (f : String → LinkTarget → LinkTarget)
    (dp rp : String) (d : FsNode) :
    mkLeafInfo dp rp (retargetLinks f d) = mkLeafInfo dp rp d := by cases d <;> rfl

/-- Retargeting keeps the built directory descriptor. -/
theorem mkDirInfo_retarget (f : String → LinkTarget → LinkTarget)
    (dp rp : String) (d : FsNode) :
    mkDirInfo dp rp (retargetLinks f d) = mkDirInfo dp rp d := by cases d <;> rfl

/-- Retargeting keeps the admitted leaf row. -/
theorem levelFiles_retarget (o : ReaddirOptions) (m g : Option (String → Bool))
    (dp pfx : String) (f : String → LinkTarget → LinkTarget) (ds : List FsNode) :
    levelFiles o m g dp pfx (retargetLinksList f ds) = levelFiles o m g dp pfx ds := by
  induction ds with
  | nil => rfl
  | cons d rest ih =>
      simp only [retargetLinksList, levelFiles, List.filterMap_cons] at ih ⊢
      rw [retarget_dirBit, retarget_entryName, mkLeafInfo_retarget, ih]
      cases d <;> rfl

mutual

/-- The sequential walk never looks at a symbolic link's target: the
output is invariant under rewriting every link target. -/
theorem readdirSyncRetarget (eng : RegexEngine) (o : ReaddirOptions)
    (f : String → LinkTarget → LinkTarget) :
    ∀ (t : FsNode) (pfx dp : String),
      readdirRecursivelySync eng o (retargetLinks f t) pfx dp =
        readdirRecursivelySync eng o t pfx dp
  | .file _, _, _ => rfl
  | .symlink _ _, _, _ => rfl
  | .baddir _ _, _, _ => rfl
  | .dir nm children, pfx, dp => by
      simp only [retargetLinks, readdirRecursivelySync]
      cases hm : compilePat eng o.matchedRegExp with
      | error e => rfl
      | ok m =>
        dsimp only
        cases hg : compilePat eng o.ignoredRegExp with
        | error e => rfl
        | ok g =>
            dsimp only
            rw [readdirSyncDirsRetarget eng o f children pfx dp m g,
              levelFiles_retarget]

/-- Link-target invariance of the sequential `dirs` loop. -/
theorem readdirSyncDirsRetarget (eng : RegexEngine) (o : ReaddirOptions)
    (f : String → LinkTarget → LinkTarget) :
    ∀ (cs : List FsNode) (pfx dp : String) (m g : Option (String → Bool)),
      readdirRecursivelySyncDirs eng o (retargetLinksList f cs) pfx dp m g =
        readdirRecursivelySyncDirs eng o cs pfx dp m g
  | [], _, _, _, _ => rfl
  | d :: rest, pfx, dp, m, g => by
      simp only [retargetLinksList, readdirRecursivelySyncDirs, retarget_dirBit,
        retarget_entryName, mkDirInfo_retarget]
      cases hd : d.isDirectoryBit with
      | false =>
          simp only [Bool.false_eq_true, if_false]
          exact readdirSyncDirsRetarget eng o f rest pfx dp m g
      | true =>
          simp only [if_true]
          rw [readdirSyncRetarget eng o f d (joinRel pfx d.entryName)
            (resolveChild dp d.entryName),
            readdirSyncDirsRetarget eng o f rest pfx dp m g]

end

/-- The leaf filter reads only `isOnlyDir` and `excludesSymlink`. -/
theorem leafAdmitted_congr {o o' : ReaddirOptions} (m g : Option (String → Bool))
    (h1 : o'.isOnlyDir = o.isOnlyDir) (h2 : o'.excludesSymlink = o.excludesSymlink)
    (s : Bool) (rp : String) :
    leafAdmitted o' m g s rp = leafAdmitted o m g s rp := by
  simp [leafAdmitted, h1, h2]

/-- The container filter reads only `isOnlyFile` and `excludesSymlink`. -/
theorem dirAdmitted_congr {o o' : ReaddirOptions} (m g : Option (String → Bool))
    (h1 : o'.isOnlyFile = o.isOnlyFile) (h2 : o'.excludesSymlink = o.excludesSymlink)
    (x : FileInfo) :
    dirAdmitted o' m g x = dirAdmitted o m g x := by
  simp [dirAdmitted, h1, h2]

/-- The admitted leaf row reads only the two leaf-filter flags. -/
theorem levelFiles_congr {o o' : ReaddirOptions} (m g : Option (String → Bool))
    (h1 : o'.isOnlyDir = o.isOnlyDir) (h2 : o'.excludesSymlink = o.excludesSymlink)
    (dp pfx : String) (ds : List FsNode) :
    levelFiles o' m g dp pfx ds = levelFiles o m g dp pfx ds := by
  induction ds with
  | nil => rfl
  | cons d rest ih =>
      simp only [levelFiles, List.filterMap_cons] at ih ⊢
      rw [leafAdmitted_congr m g h1 h2, ih]

mutual

/-- The sequential walk depends on its options only through the three
boolean flags and the compiled pattern results: two option records with
equal flags whose pattern slots compile to the same matchers produce
identical walks. -/
theorem readdirSyncPatCongr (eng : RegexEngine) (o o' : ReaddirOptions)
    (hof : o'.isOnlyFile = o.isOnlyFile) (hod : o'.isOnlyDir = o.isOnlyDir)
    (hos : o'.excludesSymlink = o.excludesSymlink)
    (hmc : compilePat eng o'.matchedRegExp = compilePat eng o.matchedRegExp)
    (hgc : compilePat eng o'.ignoredRegExp = compilePat eng o.ignoredRegExp) :
    ∀ (t : FsNode) (pfx dp : String),
      readdirRecursivelySync eng o' t pfx dp = readdirRecursivelySync eng o t pfx dp
  | .file _, _, _ => rfl
  | .symlink _ _, _, _ => rfl
  | .baddir _ _, _, _ => rfl
  | .dir nm children, pfx, dp => by
      simp only [readdirRecursivelySync]
      rw [hmc, hgc]
      cases hm : compilePat eng o.matchedRegExp with
      | error e => rfl
      | ok m =>
        dsimp only
        cases hg : compilePat eng o.ignoredRegExp with
        | error e => rfl
        | ok g =>
            dsimp only
            rw [readdirSyncDirsPatCongr eng o o' hof hod hos hmc hgc children pfx dp m g,
              levelFiles_congr m g hod hos]

/-- Option congruence for the sequential `dirs` loop. -/
theorem readdirSyncDirsPatCongr (eng : RegexEngine) (o o' : ReaddirOptions)
    (hof : o'.isOnlyFile = o.isOnlyFile) (hod : o'.isOnlyDir = o.isOnlyDir)
    (hos : o'.excludesSymlink = o.excludesSymlink)
    (hmc : compilePat eng o'.matchedRegExp = compilePat eng o.matchedRegExp)
    (hgc : compilePat eng o'.ignoredRegExp = compilePat eng o.ignoredRegExp) :
    ∀ (cs : List FsNode) (pfx dp : String) (m g : Option (String → Bool)),
      readdirRecursivelySyncDirs eng o' cs pfx dp m g =
        readdirRecursivelySyncDirs eng o cs pfx dp m g
  | [], _, _, _, _ => rfl
  | d :: rest, pfx, dp, m, g => by
      simp only [readdirRecursivelySyncDirs]
      cases hd : d.isDirectoryBit with
      | false =>
          simp only [Bool.false_eq_true, if_false]
          exact readdirSyncDirsPatCongr eng o o' hof hod hos hmc hgc rest pfx dp m g
      | true =>
          simp only [if_true]
          rw [readdirSyncPatCongr eng o o' hof hod hos hmc hgc d (joinRel pfx d.entryName)
            (resolveChild dp d.entryName),
            readdirSyncDirsPatCongr eng o o' hof hod hos hmc hgc rest pfx dp m g,
            dirAdmitted_congr m g hof hos]

end

/-- The spec's "build descriptors, keep non-directories, filter by
`admitsLeaf`" row equals the code's `files` array. -/
theorem specLeaves_eq_levelFiles (o : ReaddirOptions) (m g : Option (String → Bool))
    (dp pfx : String) (entries : List FsNode) :
    ((entries.map (fun d =>
        let rp := joinRel pfx d.entryName
        if d.isDirectoryBit then mkDirInfo dp rp d else mkLeafInfo dp rp d)).filter
          (fun x => !x.isDirectory)).filter (leafInfoAdmitted o m g) =
      levelFiles o m g dp pfx entries := by
  induction entries with
  | nil => rfl
  | cons d rest ih =>
      simp only [List.map_cons, List.filter_cons, levelFiles, List.filterMap_cons] at ih ⊢
      cases hd : d.isDirectoryBit with
      | true =>
          simp only [if_true]
          have : (mkDirInfo dp (joinRel pfx d.entryName) d).isDirectory = true := rfl
          simp only [this, Bool.not_true, Bool.false_eq_true, if_false]
          exact ih
      | false =>
          simp only [Bool.false_eq_true, if_false]
          have : (mkLeafInfo dp (joinRel pfx d.entryName) d).isDirectory = false := rfl
          simp only [this, Bool.not_false, if_true, List.filter_cons]
          have ha : leafInfoAdmitted o m g (mkLeafInfo dp (joinRel pfx d.entryName) d) =
              leafAdmitted o m g d.isSymbolicLinkBit (joinRel pfx d.entryName) := rfl
          rw [ha]
          cases hadm : leafAdmitted o m g d.isSymbolicLinkBit (joinRel pfx d.entryName) with
          | true => simp only [if_true]; rw [ih]
          | false => simp only [Bool.false_eq_true, if_false]; exact ih

mutual

/-- Refinement of the spec's traversal algorithm (§4.3) by the sequential
walker: with the FilterPredicateSet built from the compiled patterns, the
code computes exactly the spec's leaves-then-branches list at every
level. -/
theorem readdirSyncSpec (eng : RegexEngine) (o : ReaddirOptions)
    {m g : Option (String → Bool)}
    (hm : compilePat eng o.matchedRegExp = .ok m)
    (hg : compilePat eng o.ignoredRegExp = .ok g) :
    ∀ (t : FsNode) (pfx dp : String),
      readdirRecursivelySync eng o t pfx dp =
        specWalk (leafInfoAdmitted o m g) (dirAdmitted o m g) t pfx dp
  | .file _, _, _ => rfl
  | .symlink _ _, _, _ => rfl
  | .baddir _ _, _, _ => rfl
  | .dir nm entries, pfx, dp => by
      simp only [readdirRecursivelySync, specWalk, hm, hg]
      rw [readdirSyncDirsSpec eng o hm hg entries pfx dp]
      cases hb : specBranches (leafInfoAdmitted o m g) (dirAdmitted o m g) entries pfx dp with
      | error e => rfl
      | ok brs =>
          dsimp only
          rw [specLeaves_eq_levelFiles]

/-- The sequential `dirs` loop computes the flattening of the spec's
per-container branches. -/
theorem readdirSyncDirsSpec (eng : RegexEngine) (o : ReaddirOptions)
    {m g : Option (String → Bool)}
    (hm : compilePat eng o.matchedRegExp = .ok m)
    (hg : compilePat eng o.ignoredRegExp = .ok g) :
    ∀ (cs : List FsNode) (pfx dp : String),
      readdirRecursivelySyncDirs eng o cs pfx dp m g =
        (match specBranches (leafInfoAdmitted o m g) (dirAdmitted o m g) cs pfx dp with
         | .error e => .error e
         | .ok brs => .ok brs.flatten)
  | [], _, _ => rfl
  | d :: rest, pfx, dp => by
      simp only [readdirRecursivelySyncDirs, specBranches]
      cases hd : d.isDirectoryBit with
      | false =>
          simp only [Bool.false_eq_true, if_false]
          exact readdirSyncDirsSpec eng o hm hg rest pfx dp
      | true =>
          simp only [if_true]
          rw [readdirSyncSpec eng o hm hg d (joinRel pfx d.entryName)
            (resolveChild dp d.entryName)]
          cases hs : specWalk (leafInfoAdmitted o m g) (dirAdmitted o m g) d
              (joinRel pfx d.entryName) (resolveChild dp d.entryName) with
          | error e => rfl
          | ok sub =>
              dsimp only
              rw [readdirSyncDirsSpec eng o hm hg rest pfx dp]
              cases hb : specBranches (leafInfoAdmitted o m g) (dirAdmitted o m g)
                  rest pfx dp with
              | error e => rfl
              | ok brs =>
                  dsimp only
                  rw [List.flatten_cons, List.append_assoc]

end

/-- The `isOnlyDir`-only configuration. -/
def onlyDirOpts : ReaddirOptions := ⟨false, true, false, none, none, false⟩

/-- The `isOnlyFile`-only configuration. -/
def onlyFileOpts : ReaddirOptions := ⟨true, false, false, none, none, false⟩

/-- The configuration with both exclusive flags set. -/
def bothOnlyOpts : ReaddirOptions := ⟨true, true, false, none, none, false⟩

/-- A configuration with `excludesSymlink` switched on. -/
def withExclSym (o : ReaddirOptions) : ReaddirOptions :=
  ⟨o.isOnlyFile, o.isOnlyDir, true, o.matchedRegExp, o.ignoredRegExp, o.withFileTypes⟩

/-- Under `isOnlyDir` alone, admission is exactly the directory flag. -/
theorem admitsInfo_onlyDir (x : FileInfo) :
    admitsInfo onlyDirOpts none none x = x.isDirectory := by
  cases hx : x.isDirectory <;>
    simp [admitsInfo, dirAdmitted, leafInfoAdmitted, onlyDirOpts, hx]

/-- Under `isOnlyFile` alone, admission is exactly the non-directory
flag. -/
theorem admitsInfo_onlyFile (x : FileInfo) :
    admitsInfo onlyFileOpts none none x = !x.isDirectory := by
  cases hx : x.isDirectory <;>
    simp [admitsInfo, dirAdmitted, leafInfoAdmitted, onlyFileOpts, hx]

/-- With both exclusive flags set nothing is admitted. -/
theorem admitsInfo_bothOnly (o : ReaddirOptions) (m g : Option (String → Bool))
    (hof : o.isOnlyFile = true) (hod : o.isOnlyDir = true) (x : FileInfo) :
    admitsInfo o m g x = false := by
  cases hx : x.isDirectory <;>
    simp [admitsInfo, dirAdmitted, leafInfoAdmitted, hof, hod, hx]

/-- Switching `excludesSymlink` on conjoins the admission predicate with
the non-symlink flag. -/
theorem admitsInfo_withExclSym (o : ReaddirOptions) (m g : Option (String → Bool))
    (x : FileInfo) :
    admitsInfo (withExclSym o) m g x = (admitsInfo o m g x && !x.isSymbolicLink) := by
  cases hx : x.isDirectory <;> cases hs : x.isSymbolicLink <;>
    simp [admitsInfo, dirAdmitted, leafInfoAdmitted, withExclSym, hx, hs, Bool.and_assoc,
      Bool.and_comm, Bool.and_left_comm]

/-- An admitted descriptor passes the match pattern and fails the ignore
pattern. -/
theorem admitsInfo_patterns {o : ReaddirOptions} {m g : Option (String → Bool)}
    {x : FileInfo} (h : admitsInfo o m g x = true) :
    (∀ t, m = some t → t x.relPath = true) ∧
    (∀ t, g = some t → t x.relPath = false) := by
  constructor
  · intro t hm0
    subst hm0
    cases hx : x.isDirectory <;>
      simp [admitsInfo, dirAdmitted, leafInfoAdmitted, hx] at h <;> tauto
  · intro t hg0
    subst hg0
    cases hx : x.isDirectory <;>
      simp [admitsInfo, dirAdmitted, leafInfoAdmitted, hx] at h <;> tauto

/-- The matcher behind the example pattern source of the spec's fixtures:
a ".txt"-suffix test accepting both letter cases. -/
def txtTest (r : String) : Bool :=
  r.data.reverse.take 4 == ['t', 'x', 't', '.'] ||
    r.data.reverse.take 4 == ['T', 'X', 'T', '.']

/-- A concrete engine for witnesses: it compiles the one pattern source
used by the spec's examples and rejects every other source as
malformed. -/
def demoEngine : RegexEngine :=
  ⟨fun s => if s = "\\.txt$" then some txtTest else none⟩

/-- Options carrying a malformed match-pattern source. -/
def badPatOpts : ReaddirOptions := ⟨false, false, false, some (.src "("), none, false⟩

/-- A two-container tree on which completion order is observable. -/
def exTreeC1 : FsNode := .dir "r" [.dir "A" [.file "a"], .dir "B" []]

/-- A schedule that completes the root's second task first. -/
def swapSched : List Nat → List Nat := fun tpos => if tpos = [] then [1, 0] else []

/-- C1 counterexample: on `exTreeC1`, a completion order that settles the
second container first makes the concurrent walk return a different
ordered list than the sequential walk, refuting "identical ordered lists"
and "never in task-completion order". -/
theorem C1_counterexample :
    readdirRecursively trivEng defOpts swapSched exTreeC1 [] "" "/r" ≠
      readdirRecursivelySync trivEng defOpts exTreeC1 "" "/r" := by decide

/-- C1 (amended): for every tree, configuration and completion schedule
the concurrent and sequential walks either both fail or return the same
descriptor multiset, and the concurrent walk returns the identical
ordered list when every level's tasks complete in spawn order; branches
are merged in completion order, not at the container's original
position. -/
theorem C1_theorem (eng : RegexEngine) (o : ReaddirOptions)
    (sched : List Nat → List Nat) (t : FsNode) (tpos : List Nat) (pfx dp : String) :
    readdirRecursively eng o (fun _ => []) t tpos pfx dp =
      readdirRecursivelySync eng o t pfx dp ∧
    ExceptRel (readdirRecursively eng o sched t tpos pfx dp)
      (readdirRecursivelySync eng o t pfx dp) :=
  ⟨readdirSeqEq eng o t tpos pfx dp, readdirRel eng o sched t tpos pfx dp⟩

/-- C2: every symlink-flagged descriptor a walk produces has
`isDirectory = false` and `isFile = false`, in both execution modes; the
descriptor built for a symbolic-link entry carries exactly the flags
(false, false, true) whatever the link's target; and the walk result is
invariant under rewriting every link's target — the classification never
follows the link and the walker never recurses into a symlinked
directory. -/
theorem C2_theorem (eng : RegexEngine) (o : ReaddirOptions) (t : FsNode)
    (pfx dp : String) :
    (∀ l, readdirRecursivelySync eng o t pfx dp = .ok l →
      ∀ x ∈ l, x.isSymbolicLink = true → x.isDirectory = false ∧ x.isFile = false) ∧
    (∀ sched tpos l, readdirRecursively eng o sched t tpos pfx dp = .ok l →
      ∀ x ∈ l, x.isSymbolicLink = true → x.isDirectory = false ∧ x.isFile = false) ∧
    (∀ dp' rp nm tg, (mkLeafInfo dp' rp (.symlink nm tg)).isDirectory = false ∧
      (mkLeafInfo dp' rp (.symlink nm tg)).isFile = false ∧
      (mkLeafInfo dp' rp (.symlink nm tg)).isSymbolicLink = true) ∧
    (∀ f, readdirRecursivelySync eng o (retargetLinks f t) pfx dp =
      readdirRecursivelySync eng o t pfx dp) := by
  have hsync : ∀ l, readdirRecursivelySync eng o t pfx dp = .ok l →
      ∀ x ∈ l, x.isSymbolicLink = true → x.isDirectory = false ∧ x.isFile = false := by
    intro l hok x hx hsym
    obtain ⟨m, g, _, _, _, hfilter⟩ := syncOk_inv hok
    rw [hfilter] at hx
    have hall := allFileInfos_wellTyped t pfx dp x (List.mem_of_mem_filter hx)
    rcases hall with ⟨_, _, h3⟩ | ⟨_, _, h3⟩ | ⟨h1, h2, _⟩
    · rw [hsym] at h3; cases h3
    · rw [hsym] at h3; cases h3
    · exact ⟨h1, h2⟩
  refine ⟨hsync, ?_, fun dp' rp nm tg => ⟨rfl, rfl, rfl⟩,
    fun f => readdirSyncRetarget eng o f t pfx dp⟩
  intro sched tpos l hok x hx hsym
  rcases readdirRel eng o sched t tpos pfx dp with ⟨e, e', hA, _⟩ | ⟨l0, l', hA, hB, hp⟩
  · rw [hok] at hA; cases hA
  · rw [hok] at hA
    cases hA
    exact hsync l' hB x (hp.mem_iff.mp hx) hsym

/-- A tree with one symlink leaf, for the C2 witness. -/
def exTreeC2 : FsNode := .dir "r" [.symlink "s" .tdir, .file "f"]

/-- C2 witness at a concrete tree: the symlink's descriptor has both
directory and file flags clear. -/
theorem C2_witness :
    (⟨"s", "s", "/r/s", false, false, true⟩ : FileInfo).isDirectory = false ∧
    (⟨"s", "s", "/r/s", false, false, true⟩ : FileInfo).isFile = false :=
  (C2_theorem trivEng defOpts exTreeC2 "" "/r").1
    [⟨"s", "s", "/r/s", false, false, true⟩, ⟨"f", "f", "/r/f", false, true, false⟩]
    (by decide) _ (by decide) rfl

/-- C3: whenever the sequential walk succeeds, a descriptor is in the
output exactly when it is one of the tree's descriptors and passes its
own admission predicate — an excluded directory's descendants are still
enumerated and filtered independently, so inclusion predicates never
prune recursion. -/
theorem C3_theorem (eng : RegexEngine) (o : ReaddirOptions)
    (m g : Option (String → Bool)) (t : FsNode) (pfx dp : String) (l : List FileInfo)
    (hm : compilePat eng o.matchedRegExp = .ok m)
    (hg : compilePat eng o.ignoredRegExp = .ok g)
    (hok : readdirRecursivelySync eng o t pfx dp = .ok l) :
    ∀ x, x ∈ l ↔ (x ∈ allFileInfos t pfx dp ∧ admitsInfo o m g x = true) := by
  obtain ⟨m', g', hm', hg', _, hfilter⟩ := syncOk_inv hok
  rw [hm'] at hm
  rw [hg'] at hg
  cases hm
  cases hg
  intro x
  rw [hfilter]
  exact List.mem_filter

/-- A tree whose root directory child is excluded by `isOnlyFile` while
its descendant file is still returned, for the C3 witness. -/
def exTreeC3 : FsNode := .dir "r" [.dir "D" [.file "c"]]

/-- C3 witness: with `isOnlyFile` the directory `D` is excluded, yet its
child `D/c` is in the output and satisfies the membership
characterization. -/
theorem C3_witness :
    (⟨"c", "D/c", "/r/D/c", false, true, false⟩ : FileInfo) ∈
        [(⟨"c", "D/c", "/r/D/c", false, true, false⟩ : FileInfo)] ↔
      ((⟨"c", "D/c", "/r/D/c", false, true, false⟩ : FileInfo) ∈
          allFileInfos exTreeC3 "" "/r" ∧
        admitsInfo onlyFileOpts none none ⟨"c", "D/c", "/r/D/c", false, true, false⟩ = true) :=
  C3_theorem trivEng onlyFileOpts none none exTreeC3 "" "/r"
    [⟨"c", "D/c", "/r/D/c", false, true, false⟩] rfl rfl (by decide) _

/-- C4 counterexample: with a malformed match pattern and a root whose
listing fails, the walk reports the listing failure, not
`InvalidPattern` — the root directory is listed before the patterns are
compiled, so the pattern error is not raised "before any filesystem
access". -/
theorem C4_counterexample :
    readdirRecursivelySync trivEng badPatOpts (.baddir "gone" (.notFound "/gone"))
        "" "/gone" = .error (.notFound "/gone") ∧
      WalkError.notFound "/gone" ≠ WalkError.invalidPattern "(" := by decide

/-- C4 (amended): a malformed pattern source fails the walk with
`InvalidPattern` during the same call, after the root directory listing
succeeds but before any filtering or recursion — in both execution modes,
for every tree below the root. -/
theorem C4_theorem (eng : RegexEngine) (o : ReaddirOptions) (s : String)
    (nm : String) (cs : List FsNode) (pfx dp : String)
    (sched : List Nat → List Nat) (tpos : List Nat) :
    (o.matchedRegExp = some (.src s) → eng.compileI s = none →
      readdirRecursivelySync eng o (.dir nm cs) pfx dp = .error (.invalidPattern s) ∧
      readdirRecursively eng o sched (.dir nm cs) tpos pfx dp = .error (.invalidPattern s)) ∧
    (∀ m, compilePat eng o.matchedRegExp = .ok m → o.ignoredRegExp = some (.src s) →
      eng.compileI s = none →
      readdirRecursivelySync eng o (.dir nm cs) pfx dp = .error (.invalidPattern s) ∧
      readdirRecursively eng o sched (.dir nm cs) tpos pfx dp = .error (.invalidPattern s)) := by
  constructor
  · intro hmr hcomp
    constructor
    · simp [readdirRecursivelySync, compilePat, hmr, hcomp]
    · simp [readdirRecursively, compilePat, hmr, hcomp]
  · intro m hm hgr hcomp
    have hgc : compilePat eng o.ignoredRegExp = .error (.invalidPattern s) := by
      simp [compilePat, hgr, hcomp]
    constructor
    · simp [readdirRecursivelySync, hm, hgc]
    · simp [readdirRecursively, hm, hgc]

/-- C4 witness: the malformed source "(" aborts a walk of an existing
empty directory with `InvalidPattern`. -/
theorem C4_witness :
    readdirRecursivelySync trivEng badPatOpts (.dir "r" []) "" "/r" =
      .error (.invalidPattern "(") :=
  ((C4_theorem trivEng badPatOpts "(" "r" [] "" "/r" (fun _ => []) []).1 rfl rfl).1

/-- C5: when any directory listing in the tree fails, both walks abort
with one of the raised listing errors, propagated as-is — no partial
result is returned in either execution mode, and in concurrent mode the
failing task fails the whole call. -/
theorem C5_theorem (eng : RegexEngine) (o : ReaddirOptions)
    (m g : Option (String → Bool)) (t : FsNode) (pfx dp : String)
    (sched : List Nat → List Nat) (tpos : List Nat)
    (hm : compilePat eng o.matchedRegExp = .ok m)
    (hg : compilePat eng o.ignoredRegExp = .ok g)
    (hbad : listingErrors t ≠ []) :
    readdirRecursivelySync eng o t pfx dp ∈ (listingErrors t).map Except.error ∧
    readdirRecursively eng o sched t tpos pfx dp ∈ (listingErrors t).map Except.error := by
  have hdir : t.isDirectoryBit = true := by
    cases htb : t.isDirectoryBit
    · exact absurd (listingErrors_of_not_dirBit htb) hbad
    · rfl
  have hasync : ∀ (sch : List Nat → List Nat) (tp : List Nat),
      readdirRecursively eng o sch t tp pfx dp ∈ (listingErrors t).map Except.error := by
    intro sch tp
    cases hr : readdirRecursively eng o sch t tp pfx dp with
    | ok l => exact absurd ((readdirCtl eng o sch hm hg t tp pfx dp hdir).2 l hr) hbad
    | error e =>
        exact List.mem_map.mpr ⟨e, (readdirCtl eng o sch hm hg t tp pfx dp hdir).1 e hr, rfl⟩
  refine ⟨?_, hasync sched tpos⟩
  have hseq := hasync (fun _ => []) []
  rw [readdirSeqEq] at hseq
  exact hseq

/-- A tree with one failing subdirectory listing, for the C5 witness. -/
def badTree : FsNode := .dir "r" [.baddir "x" (.permissionDenied "/r/x")]

/-- C5 witness: a permission failure below the root aborts the sequential
walk with exactly that error. -/
theorem C5_witness :
    readdirRecursivelySync trivEng defOpts badTree "" "/r" ∈
      (listingErrors badTree).map Except.error :=
  (C5_theorem trivEng defOpts none none badTree "" "/r" (fun _ => []) [] rfl rfl
    (by decide)).1

/-- A tree with a leaf and two containers, for the C6 statements. -/
def exTreeC6 : FsNode := .dir "s" [.file "z", .dir "C" [], .dir "D" [.file "d1"]]

/-- C6 counterexample: under a completion order that settles the second
container first, the concurrent walk's list is not "admitted leaves
followed by one branch per container in the containers' listing order":
it differs from the spec-shaped list. -/
theorem C6_counterexample :
    readdirRecursively trivEng defOpts swapSched exTreeC6 [] "" "/s" ≠
      specWalk (leafInfoAdmitted defOpts none none) (dirAdmitted defOpts none none)
        exTreeC6 "" "/s" := by decide

/-- C6 (amended): the sequential walk returns exactly the spec's
leaves-then-branches list at every level (each branch the container's
descriptor, when admitted, followed by its descendants, containers in
listing order); the concurrent walk returns that list when tasks settle
in spawn order, and otherwise the same descriptor multiset with branches
merged in completion order. -/
theorem C6_theorem (eng : RegexEngine) (o : ReaddirOptions)
    (m g : Option (String → Bool)) (t : FsNode) (pfx dp : String)
    (sched : List Nat → List Nat) (tpos : List Nat)
    (hm : compilePat eng o.matchedRegExp = .ok m)
    (hg : compilePat eng o.ignoredRegExp = .ok g) :
    readdirRecursivelySync eng o t pfx dp =
      specWalk (leafInfoAdmitted o m g) (dirAdmitted o m g) t pfx dp ∧
    readdirRecursively eng o (fun _ => []) t tpos pfx dp =
      specWalk (leafInfoAdmitted o m g) (dirAdmitted o m g) t pfx dp ∧
    ExceptRel (readdirRecursively eng o sched t tpos pfx dp)
      (specWalk (leafInfoAdmitted o m g) (dirAdmitted o m g) t pfx dp) := by
  have h1 := readdirSyncSpec eng o hm hg t pfx dp
  refine ⟨h1, ?_, ?_⟩
  · rw [readdirSeqEq]
    exact h1
  · have h2 := readdirRel eng o sched t tpos pfx dp
    rw [h1] at h2
    exact h2

/-- C6 witness: on the concrete three-entry tree the sequential walk
equals the spec-shaped walk. -/
theorem C6_witness :
    readdirRecursivelySync trivEng defOpts exTreeC6 "" "/s" =
      specWalk (leafInfoAdmitted defOpts none none) (dirAdmitted defOpts none none)
        exTreeC6 "" "/s" :=
  (C6_theorem trivEng defOpts none none exTreeC6 "" "/s" (fun _ => []) [] rfl rfl).1

/-- C7: with `onlyDirectories` alone, the walk returns exactly the real
directory descriptors of the tree (none of them symlinks), the count
equals total entries minus files minus symlinks, and every concurrent
run returns the same descriptor set. -/
theorem C7_theorem (eng : RegexEngine) (nm : String) (cs : List FsNode)
    (pfx dp : String) (sched : List Nat → List Nat) (tpos : List Nat)
    (herr : listingErrors (.dir nm cs) = []) :
    readdirRecursivelySync eng onlyDirOpts (.dir nm cs) pfx dp =
      .ok ((allFileInfos (.dir nm cs) pfx dp).filter (fun x => x.isDirectory)) ∧
    (∀ x ∈ (allFileInfos (.dir nm cs) pfx dp).filter (fun x => x.isDirectory),
      x.isDirectory = true ∧ x.isSymbolicLink = false) ∧
    ((allFileInfos (.dir nm cs) pfx dp).filter (fun x => x.isDirectory)).length =
      (allFileInfos (.dir nm cs) pfx dp).length -
        ((allFileInfos (.dir nm cs) pfx dp).filter (fun x => x.isFile)).length -
        ((allFileInfos (.dir nm cs) pfx dp).filter (fun x => x.isSymbolicLink)).length ∧
    (∀ l, readdirRecursively eng onlyDirOpts sched (.dir nm cs) tpos pfx dp = .ok l →
      l.Perm ((allFileInfos (.dir nm cs) pfx dp).filter (fun x => x.isDirectory))) := by
  have hchar := readdirSyncChar eng onlyDirOpts rfl rfl
    (.dir nm cs) pfx dp rfl herr
  have hfe : (allFileInfos (.dir nm cs) pfx dp).filter (admitsInfo onlyDirOpts none none) =
      (allFileInfos (.dir nm cs) pfx dp).filter (fun x => x.isDirectory) :=
    List.filter_congr (fun x _ => admitsInfo_onlyDir x)
  have h1 := hchar.trans (congrArg Except.ok hfe)
  refine ⟨h1, ?_, ?_, ?_⟩
  · intro x hx
    have hxf := List.mem_filter.mp hx
    have hwt := allFileInfos_wellTyped (.dir nm cs) pfx dp x hxf.1
    rcases hwt with ⟨ha, _, hc⟩ | ⟨ha, _, _⟩ | ⟨ha, _, _⟩
    · exact ⟨ha, hc⟩
    · rw [ha] at hxf; cases hxf.2
    · rw [ha] at hxf; cases hxf.2
  · have hcount := count_flags (allFileInfos (.dir nm cs) pfx dp)
      (allFileInfos_wellTyped (.dir nm cs) pfx dp)
    omega
  · intro l hok
    rcases readdirRel eng onlyDirOpts sched (.dir nm cs) tpos pfx dp with
      ⟨e, e', hA, _⟩ | ⟨l0, l', hA, hB, hp⟩
    · rw [hok] at hA; cases hA
    · rw [hok] at hA
      cases hA
      rw [h1] at hB
      cases hB
      exact hp

/-- A mixed tree (file, symlink, directory with a child), for witnesses. -/
def exTreeC7 : FsNode := .dir "r" [.file "f", .symlink "s" .tfile, .dir "D" [.file "c"]]

/-- C7 witness: on the concrete mixed tree the `onlyDirectories` walk
returns exactly the directory descriptors. -/
theorem C7_witness :
    readdirRecursivelySync trivEng onlyDirOpts exTreeC7 "" "/r" =
      .ok ((allFileInfos exTreeC7 "" "/r").filter (fun x => x.isDirectory)) :=
  (C7_theorem trivEng "r" [.file "f", .symlink "s" .tfile, .dir "D" [.file "c"]]
    "" "/r" (fun _ => []) [] (by decide)).1

/-- C8: with `onlyFiles` alone the walk returns exactly the complement of
the real directories (files plus symlinks), and switching
`excludesSymlinks` on in any configuration removes exactly the symlink
descriptors from that configuration's result. -/
theorem C8_theorem (eng : RegexEngine) (nm : String) (cs : List FsNode)
    (pfx dp : String) (herr : listingErrors (.dir nm cs) = []) :
    readdirRecursivelySync eng onlyFileOpts (.dir nm cs) pfx dp =
      .ok ((allFileInfos (.dir nm cs) pfx dp).filter (fun x => !x.isDirectory)) ∧
    (∀ (o : ReaddirOptions) (m g : Option (String → Bool)) (l : List FileInfo),
      compilePat eng o.matchedRegExp = .ok m →
      compilePat eng o.ignoredRegExp = .ok g →
      readdirRecursivelySync eng o (.dir nm cs) pfx dp = .ok l →
      readdirRecursivelySync eng (withExclSym o) (.dir nm cs) pfx dp =
        .ok (l.filter (fun x => !x.isSymbolicLink))) := by
  constructor
  · have hchar := readdirSyncChar eng onlyFileOpts rfl rfl
      (.dir nm cs) pfx dp rfl herr
    exact hchar.trans (congrArg Except.ok
      (List.filter_congr (fun x _ => admitsInfo_onlyFile x)))
  · intro o m g l hm hg hok
    obtain ⟨m', g', hm', hg', _, hfilter⟩ := syncOk_inv hok
    rw [hm'] at hm
    rw [hg'] at hg
    cases hm
    cases hg
    have hchar := readdirSyncChar eng (withExclSym o) hm' hg'
      (.dir nm cs) pfx dp rfl herr
    rw [hfilter, List.filter_filter]
    refine hchar.trans (congrArg Except.ok ?_)
    refine List.filter_congr (fun x _ => ?_)
    rw [admitsInfo_withExclSym, Bool.and_comm]

/-- C8 witness: on the concrete mixed tree the `onlyFiles` walk returns
exactly the non-directory descriptors. -/
theorem C8_witness :
    readdirRecursivelySync trivEng onlyFileOpts exTreeC7 "" "/r" =
      .ok ((allFileInfos exTreeC7 "" "/r").filter (fun x => !x.isDirectory)) :=
  (C8_theorem trivEng "r" [.file "f", .symlink "s" .tfile, .dir "D" [.file "c"]]
    "" "/r" (by decide)).1

/-- C9: a pattern-source string is compiled with the engine's
case-insensitive compile (`new RegExp(src, 'i')`) and tested against each
entry's `relPath`: every returned descriptor matches the match pattern
and fails the ignore pattern; and a precompiled regular expression is
used exactly as provided — the walk with the source equals the walk with
its compiled matcher. -/
theorem C9_theorem (eng : RegexEngine) (o : ReaddirOptions) (t : FsNode)
    (pfx dp : String) (s : String) (f : String → Bool) :
    (∀ l, readdirRecursivelySync eng o t pfx dp = .ok l →
      (o.matchedRegExp = some (.src s) → eng.compileI s = some f →
        ∀ x ∈ l, f x.relPath = true) ∧
      (o.ignoredRegExp = some (.src s) → eng.compileI s = some f →
        ∀ x ∈ l, f x.relPath = false)) ∧
    (eng.compileI s = some f →
      readdirRecursivelySync eng
        ⟨o.isOnlyFile, o.isOnlyDir, o.excludesSymlink, some (.src s),
          o.ignoredRegExp, o.withFileTypes⟩ t pfx dp =
      readdirRecursivelySync eng
        ⟨o.isOnlyFile, o.isOnlyDir, o.excludesSymlink, some (.re f),
          o.ignoredRegExp, o.withFileTypes⟩ t pfx dp) := by
  constructor
  · intro l hok
    obtain ⟨m, g, hm, hg, _, hfilter⟩ := syncOk_inv hok
    constructor
    · intro hms hcs x hx
      have hmv : m = some f := by
        rw [hms] at hm
        simp [compilePat, hcs] at hm
        exact hm.symm
      rw [hfilter] at hx
      exact (admitsInfo_patterns (List.of_mem_filter hx)).1 f (by rw [hmv])
    · intro hgs hcs x hx
      have hgv : g = some f := by
        rw [hgs] at hg
        simp [compilePat, hcs] at hg
        exact hg.symm
      rw [hfilter] at hx
      exact (admitsInfo_patterns (List.of_mem_filter hx)).2 f (by rw [hgv])
  · intro hcs
    refine readdirSyncPatCongr eng
      ⟨o.isOnlyFile, o.isOnlyDir, o.excludesSymlink, some (.re f),
        o.ignoredRegExp, o.withFileTypes⟩
      ⟨o.isOnlyFile, o.isOnlyDir, o.excludesSymlink, some (.src s),
        o.ignoredRegExp, o.withFileTypes⟩
      rfl rfl rfl ?_ rfl t pfx dp
    simp [compilePat, hcs]

/-- A tree with a matching and a non-matching file, for the C9 witness. -/
def exTreeC9 : FsNode := .dir "r" [.file "a.txt", .file "b.log"]

/-- Options with the spec fixture's match-pattern source. -/
def txtOpts : ReaddirOptions := ⟨false, false, false, some (.src "\\.txt$"), none, false⟩

/-- C9 witness: the one descriptor returned under the ".txt" match
pattern has a `relPath` accepted by the compiled case-insensitive
matcher. -/
theorem C9_witness :
    txtTest (FileInfo.mk "a.txt" "a.txt" "/r/a.txt" false true false).relPath = true :=
  ((C9_theorem demoEngine txtOpts exTreeC9 "" "/r" "\\.txt$" txtTest).1
    [⟨"a.txt", "a.txt", "/r/a.txt", false, true, false⟩] (by decide)).1
    rfl rfl _ (by decide)

/-- C10: with both `onlyDirectories` and `onlyFiles` set the walk of any
failure-free tree returns the empty list in both execution modes — every
leaf is rejected by `onlyDirectories` and every container by `onlyFiles`
— while recursion still visits the whole tree: a listing failure anywhere
still aborts the walk with that error. -/
theorem C10_theorem (eng : RegexEngine) (o : ReaddirOptions)
    (m g : Option (String → Bool)) (t : FsNode) (pfx dp : String)
    (sched : List Nat → List Nat) (tpos : List Nat)
    (hof : o.isOnlyFile = true) (hod : o.isOnlyDir = true)
    (hm : compilePat eng o.matchedRegExp = .ok m)
    (hg : compilePat eng o.ignoredRegExp = .ok g) :
    (t.isDirectoryBit = true → listingErrors t = [] →
      readdirRecursivelySync eng o t pfx dp = .ok [] ∧
      readdirRecursively eng o sched t tpos pfx dp = .ok []) ∧
    (listingErrors t ≠ [] →
      readdirRecursivelySync eng o t pfx dp ∈ (listingErrors t).map Except.error ∧
      readdirRecursively eng o sched t tpos pfx dp ∈ (listingErrors t).map Except.error) := by
  constructor
  · intro hdir herr
    have hchar := readdirSyncChar eng o hm hg t pfx dp hdir herr
    have hempty : (allFileInfos t pfx dp).filter (admitsInfo o m g) = [] := by
      rw [List.filter_congr (fun x _ => admitsInfo_bothOnly o m g hof hod x)]
      exact List.filter_false _
    rw [hempty] at hchar
    refine ⟨hchar, ?_⟩
    rcases readdirRel eng o sched t tpos pfx dp with ⟨e, e', hA, hB⟩ | ⟨l0, l', hA, hB, hp⟩
    · rw [hchar] at hB; cases hB
    · rw [hchar] at hB
      cases hB
      rw [List.perm_nil.mp hp] at hA
      exact hA
  · intro hbad
    have hdir : t.isDirectoryBit = true := by
      cases htb : t.isDirectoryBit
      · exact absurd (listingErrors_of_not_dirBit htb) hbad
      · rfl
    have hasync : ∀ (sch : List Nat → List Nat) (tp : List Nat),
        readdirRecursively eng o sch t tp pfx dp ∈ (listingErrors t).map Except.error := by
      intro sch tp
      cases hr : readdirRecursively eng o sch t tp pfx dp with
      | ok l => exact absurd ((readdirCtl eng o sch hm hg t tp pfx dp hdir).2 l hr) hbad
      | error e =>
          exact List.mem_map.mpr ⟨e, (readdirCtl eng o sch hm hg t tp pfx dp hdir).1 e hr, rfl⟩
    refine ⟨?_, hasync sched tpos⟩
    have hseq := hasync (fun _ => []) []
    rw [readdirSeqEq] at hseq
    exact hseq

/-- C10 witness: on the concrete mixed tree the doubly-restricted walk
returns the empty list. -/
theorem C10_witness :
    readdirRecursivelySync trivEng bothOnlyOpts exTreeC7 "" "/r" = .ok [] :=
  ((C10_theorem trivEng bothOnlyOpts none none exTreeC7 "" "/r" (fun _ => []) []
    rfl rfl rfl rfl).1 rfl (by decide)).1

end FsHospitality
